import Mathlib

/-!
Shallow embedding of the synthesis core of the SoundDesignStudio repository
(`simple_audio_player.py`, `advanced_synthesis.py`).

Conventions of the embedding:
* Python floats are modelled as exact reals (`ℝ`); configuration scalars that
  only feed integer/length computations are modelled as rationals (`ℚ`) so that
  those computations stay decidable.
* NumPy arrays are Lean lists of reals; elementwise operations are `map`/`zipWith`.
* Python's global NumPy random generator is modelled as an explicit stream
  `rng : ℕ → ℝ` threaded to the functions that could consume it.
* `int(x)` (truncation toward zero) is `pyInt`.
-/

namespace SoundDesign

/-- `self.sample_rate = 44100` (`SAMPLE_RATE` in `EnhancedAudioPlayer`). -/
def sampleRate : ℕ := 44100

/-- Python `int(q)`: truncation toward zero. -/
def pyInt (q : ℚ) : ℤ := if q < 0 then ⌈q⌉ else ⌊q⌋

/-- `num_samples = int(self.sample_rate * config.duration)` in `_generate_audio`. -/
def numSamples (duration : ℚ) : ℕ := (pyInt (sampleRate * duration)).toNat

/-- `t = np.linspace(0, duration, num_samples, False)`: with `endpoint=False`
the step is `duration / num_samples`, so `t[i] = duration * i / num_samples`. -/
def timeVec (duration : ℚ) : List ℚ :=
  (List.range (numSamples duration)).map
    (fun (i : ℕ) => duration * (i : ℚ) / ((numSamples duration : ℕ) : ℚ))

/-- `harmonics` dictionary of `PlayAudioConfig`. -/
structure Harmonics where
  enabled : Bool
  octave_volume : ℚ
  fifth_volume : ℚ
  sub_bass_volume : ℚ

/-- `blending` dictionary of `PlayAudioConfig`; `blendAmount` embeds the
`blend_ratio` entry. -/
structure Blending where
  enabled : Bool
  blendAmount : ℚ

/-- `advanced` dictionary of `PlayAudioConfig`.  `fmModAmount`/`fmModIndex`
embed the `fm_mod_ratio`/`fm_mod_index` entries. -/
structure Advanced where
  enabled : Bool
  synthesis_type : String
  fmModAmount : ℚ
  fmModIndex : ℚ
  noise_type : String
  lfo_enabled : Bool
  lfo_frequency : ℚ
  lfo_depth : ℚ
  echo_enabled : Bool
  echo_delay : ℚ
  echo_feedback : ℚ

/-- The synthesis-relevant fields of `PlayAudioConfig` (the SoundFont and
recorded-audio fields drive the excluded collaborator paths and are omitted). -/
structure PlayAudioConfig where
  frequency : ℚ
  wave_type : String
  duration : ℚ
  volume : ℚ
  attack : ℚ
  decay : ℚ
  sustain : ℚ
  release : ℚ
  harmonics : Harmonics
  blending : Blending
  advanced : Advanced

/-- Sawtooth sample at phase `x = frequency * t`, computed in `ℚ`:
`2 * (x - floor(x + 0.5))` (from `_generate_waveform`). -/
def sawQ (x : ℚ) : ℚ := 2 * (x - ⌊x + 1/2⌋)

/-- Triangle sample at phase `x`: `2 * |2 * (x - floor(x + 0.5))| - 1`. -/
def triQ (x : ℚ) : ℚ := 2 * |sawQ x| - 1

/-- One sample of `EnhancedAudioPlayer._generate_waveform` at time `tq`.
The final `else` branch is the silent fallback to sine for unknown types. -/
noncomputable def waveSample (wave_type : String) (frequency tq : ℚ) : ℝ :=
  if wave_type = "sine" then
    Real.sin (2 * Real.pi * (frequency : ℝ) * (tq : ℝ))
  else if wave_type = "square" then
    Real.sign (Real.sin (2 * Real.pi * (frequency : ℝ) * (tq : ℝ)))
  else if wave_type = "sawtooth" then
    ((sawQ (frequency * tq) : ℚ) : ℝ)
  else if wave_type = "triangle" then
    ((triQ (frequency * tq) : ℚ) : ℝ)
  else
    Real.sin (2 * Real.pi * (frequency : ℝ) * (tq : ℝ))

/-- `EnhancedAudioPlayer._generate_waveform(t, frequency, wave_type)`. -/
noncomputable def generate_waveform (t : List ℚ) (frequency : ℚ)
    (wave_type : String) : List ℝ :=
  t.map (waveSample wave_type frequency)

/-! ### ADSR envelope (`EnhancedAudioPlayer._apply_adsr`) -/

/-- `attack_samples = min(int(config.attack * self.sample_rate), num_samples)`. -/
def attackSamples (cfg : PlayAudioConfig) (n : ℕ) : ℤ :=
  min (pyInt (cfg.attack * sampleRate)) n

/-- `decay_samples = min(int(config.decay * sr), num_samples - attack_samples)`. -/
def decaySamples (cfg : PlayAudioConfig) (n : ℕ) : ℤ :=
  min (pyInt (cfg.decay * sampleRate)) (n - attackSamples cfg n)

/-- `remaining = num_samples - attack_samples - decay_samples`. -/
def adsrRemaining (cfg : PlayAudioConfig) (n : ℕ) : ℤ :=
  n - attackSamples cfg n - decaySamples cfg n

/-- `release_samples = min(int(config.release * sr), remaining)`. -/
def releaseSamples (cfg : PlayAudioConfig) (n : ℕ) : ℤ :=
  min (pyInt (cfg.release * sampleRate)) (adsrRemaining cfg n)

/-- `sustain_samples = max(0, remaining - release_samples)`. -/
def sustainSamples (cfg : PlayAudioConfig) (n : ℕ) : ℤ :=
  max 0 (adsrRemaining cfg n - releaseSamples cfg n)

/-- Value `j` of `np.linspace(a, b, m)` (endpoint included):
`a + (b - a) * j / (m - 1)` for `m ≥ 2`, and just `a` for `m = 1`. -/
noncomputable def linVal (a b : ℝ) (m j : ℕ) : ℝ :=
  if m ≤ 1 then a else a + (b - a) * j / ((m : ℝ) - 1)

/-- The envelope array built by `_apply_adsr`, as a function of the index.
The four segments are laid out contiguously; each is written only when its
length is positive (the code's `if *_samples > 0` guards), and the release
segment is clipped to `num_samples - current_idx` with start level `sustain`
when any earlier phase ran, else `1.0`.  Unwritten entries keep the
`np.zeros` initial value. -/
noncomputable def adsrEnvelope (cfg : PlayAudioConfig) (n : ℕ) (i : ℕ) : ℝ :=
  let aN := (attackSamples cfg n).toNat
  let dN := (decaySamples cfg n).toNat
  let sN := (sustainSamples cfg n).toNat
  let idx := aN + dN + sN
  let actualRelease := min (releaseSamples cfg n).toNat (n - idx)
  if i < aN then linVal 0 1 aN i
  else if i < aN + dN then linVal 1 (cfg.sustain : ℝ) dN (i - aN)
  else if i < idx then (cfg.sustain : ℝ)
  else if i < idx + actualRelease then
    linVal (if 0 < idx then (cfg.sustain : ℝ) else 1) 0 actualRelease (i - idx)
  else 0

/-- `EnhancedAudioPlayer._apply_adsr`: `audio * envelope` elementwise. -/
noncomputable def apply_adsr (audio : List ℝ) (cfg : PlayAudioConfig) : List ℝ :=
  audio.mapIdx (fun i x => x * adsrEnvelope cfg audio.length i)

/-! ### Harmonics, blending, advanced hook and the per-layer pipeline -/

/-- Peak of the absolute values, `np.max(np.abs(l))` (with 0 for the empty
buffer, on which NumPy would raise instead). -/
noncomputable def maxAbs (l : List ℝ) : ℝ := l.foldr (fun x m => max |x| m) 0

/-- `result += partial * vol` where the partial is generated elementwise. -/
noncomputable def addScaled (audio other : List ℝ) (vol : ℚ) : List ℝ :=
  List.zipWith (fun x y => x + y * (vol : ℝ)) audio other

/-- `EnhancedAudioPlayer._apply_harmonics`: add octave/fifth/sub-bass partials
when their volumes are positive, then divide by the peak if it exceeds 1. -/
noncomputable def apply_harmonics (audio : List ℝ) (t : List ℚ)
    (cfg : PlayAudioConfig) : List ℝ :=
  let r1 := if 0 < cfg.harmonics.octave_volume then
      addScaled audio (generate_waveform t (cfg.frequency * 2) cfg.wave_type)
        cfg.harmonics.octave_volume
    else audio
  let r2 := if 0 < cfg.harmonics.fifth_volume then
      addScaled r1 (generate_waveform t (cfg.frequency * (3/2)) cfg.wave_type)
        cfg.harmonics.fifth_volume
    else r1
  let r3 := if 0 < cfg.harmonics.sub_bass_volume then
      addScaled r2 (generate_waveform t (cfg.frequency * (1/2)) cfg.wave_type)
        cfg.harmonics.sub_bass_volume
    else r2
  let m := maxAbs r3
  if 1 < m then r3.map (fun x => x / m) else r3

/-- `EnhancedAudioPlayer._apply_blending`.  The code divides the configured
`blend_ratio` by 100 (`# Convert percentage`), blends square with triangle and
sawtooth with sine, and returns the input unchanged otherwise. -/
noncomputable def apply_blending (audio : List ℝ) (t : List ℚ)
    (cfg : PlayAudioConfig) : List ℝ :=
  let r : ℚ := cfg.blending.blendAmount / 100
  if cfg.wave_type = "square" then
    List.zipWith (fun x s => x * (1 - (r : ℝ)) + s * (r : ℝ)) audio
      (generate_waveform t cfg.frequency "triangle")
  else if cfg.wave_type = "sawtooth" then
    List.zipWith (fun x s => x * (1 - (r : ℝ)) + s * (r : ℝ)) audio
      (generate_waveform t cfg.frequency "sine")
  else audio

/-- `EnhancedAudioPlayer._apply_advanced`: reads `synthesis_type` and then
("For now, just return the original audio") returns its input unchanged.
The `rng` stream is the explicit model of the global NumPy generator any
real implementation of this hook would consume; the code consumes none. -/
def apply_advanced (audio : List ℝ) (_t : List ℚ) (_cfg : PlayAudioConfig)
    (_rng : ℕ → ℝ) : List ℝ :=
  audio

/-- `AdvancedSynthesis.generate_white_noise`: `int(sr * duration)` draws from
the global uniform generator, modelled as consuming the stream `rng`.
(Defined in `advanced_synthesis.py`; never called by the render path.) -/
def generate_white_noise (duration : ℚ) (rng : ℕ → ℝ) : List ℝ :=
  (List.range (numSamples duration)).map rng

/-- The synthesis branch of `EnhancedAudioPlayer._generate_audio`:
waveform → harmonics (if enabled) → blending (if enabled and not sine) →
ADSR → advanced hook (if enabled). -/
noncomputable def generate_audio (cfg : PlayAudioConfig) (rng : ℕ → ℝ) : List ℝ :=
  let t := timeVec cfg.duration
  let audio := generate_waveform t cfg.frequency cfg.wave_type
  let audio := if cfg.harmonics.enabled then apply_harmonics audio t cfg else audio
  let audio := if cfg.blending.enabled ∧ cfg.wave_type ≠ "sine" then
      apply_blending audio t cfg
    else audio
  let audio := apply_adsr audio cfg
  if cfg.advanced.enabled then apply_advanced audio t cfg rng else audio

/-! ### Mixing (`play_mixed_sounds` / `export_mixed_to_wav` /
`export_sequential_to_wav`) and document rendering -/

/-- `np.clip(x, -1.0, 1.0)`. -/
noncomputable def clip1 (x : ℝ) : ℝ := min 1 (max (-1) x)

/-- Zero-pad a buffer to length `m` (`np.concatenate([audio, zeros])`). -/
def padTo (m : ℕ) (a : List ℝ) : List ℝ := a ++ List.replicate (m - a.length) 0

/-- `max_duration = max(max_duration, len(audio))` accumulation. -/
def maxLength (bufs : List (List ℝ)) : ℕ :=
  bufs.foldl (fun m b => max m b.length) 0

/-- `np.mean(np.vstack(padded), axis=0)`: elementwise sum divided by the
number of buffers. -/
noncomputable def meanLists (bufs : List (List ℝ)) (m : ℕ) : List ℝ :=
  (List.range m).map (fun i => (bufs.map (fun b => b.getD i 0)).sum / bufs.length)

/-- The tail of the mixer: `if max_val > 0.8: mixed = mixed * (0.8 / max_val)`
followed by `np.clip(mixed, -1.0, 1.0)`. -/
noncomputable def mixFinalize (mixed : List ℝ) : List ℝ :=
  let peak := maxAbs mixed
  let normed := if (0.8 : ℝ) < peak then mixed.map (fun x => x * (0.8 / peak))
    else mixed
  normed.map clip1

/-- The simultaneous mixer: pad each buffer to the maximum length, average
(a single buffer bypasses the averaging: `mixed = padded_audio[0]`), scale by
`0.8 / peak` when the peak exceeds `0.8`, and hard-clip to `[-1, 1]`.  Zero
buffers produce no output (the code returns early). -/
noncomputable def mixSimultaneous (bufs : List (List ℝ)) : List ℝ :=
  if bufs = [] then []
  else
    mixFinalize
      (if bufs.length = 1 then padTo (maxLength bufs) (bufs.headD [])
       else meanLists (bufs.map (padTo (maxLength bufs))) (maxLength bufs))

/-- Per-layer processing on the sequential export path:
`audio = generate * volume` then `np.clip(audio, -1, 1)`. -/
noncomputable def processLayerSeq (cfg : PlayAudioConfig) (rng : ℕ → ℝ) : List ℝ :=
  (generate_audio cfg rng).map (fun x => clip1 (x * (cfg.volume : ℝ)))

/-- Per-layer processing on the simultaneous path: `audio = generate * volume`
(the excluded effects-chain collaborator is outside this model). -/
noncomputable def processLayerSim (cfg : PlayAudioConfig) (rng : ℕ → ℝ) : List ℝ :=
  (generate_audio cfg rng).map (fun x => x * (cfg.volume : ℝ))

/-- A document: ordered layer configurations plus a playback mode. -/
structure SoundDocument where
  layers : List PlayAudioConfig
  playback_mode : String

/-- Render a document: concatenate the processed layers (sequential) or mix
them (simultaneous). -/
noncomputable def renderDocument (doc : SoundDocument) (rng : ℕ → ℝ) : List ℝ :=
  if doc.playback_mode = "sequential" then
    (doc.layers.map (fun c => processLayerSeq c rng)).flatten
  else
    mixSimultaneous (doc.layers.map (fun c => processLayerSim c rng))

/-! ### Echo (`AdvancedSynthesis.apply_simple_echo`) -/

/-- `delay_samples = int(delay_time * sample_rate)`. -/
def delaySamplesOf (delayTime : ℚ) : ℕ := (pyInt (delayTime * sampleRate)).toNat

/-- The first `k` iterations of the feedback loop of `apply_simple_echo`
(indices `d, d+1, …, d+k-1`), each doing
`output[i] += output[i - delay_samples] * feedback`. -/
def echoLoopAux (audio : List ℝ) (d : ℕ) (fb : ℝ) (k : ℕ) : List ℝ :=
  (List.range' d k).foldl
    (fun out i => out.set i (out.getD i 0 + out.getD (i - d) 0 * fb)) audio

/-- The full feedback loop of `apply_simple_echo`:
`for i in range(delay_samples, len(audio)): output[i] += output[i - delay_samples] * feedback`
on `output = np.copy(audio)`. -/
def echoLoop (audio : List ℝ) (d : ℕ) (fb : ℝ) : List ℝ :=
  echoLoopAux audio d fb (audio.length - d)

/-- `AdvancedSynthesis.apply_simple_echo`: run the feedback loop, then divide
by the peak only if the peak exceeds 1. -/
noncomputable def apply_simple_echo (audio : List ℝ) (delayTime : ℚ)
    (fb : ℝ) : List ℝ :=
  let raw := echoLoop audio (delaySamplesOf delayTime) fb
  let m := maxAbs raw
  if 1 < m then raw.map (fun x => x / m) else raw

/-! ### Concrete configurations used by scenario claims -/

/-- Harmonics disabled. -/
def harmonicsOff : Harmonics := ⟨false, 0, 0, 0⟩

/-- Blending disabled. -/
def blendingOff : Blending := ⟨false, 0⟩

/-- Advanced synthesis disabled (the `PlayAudioConfig` defaults). -/
def advancedOff : Advanced := ⟨false, "fm", 7/5, 5, "white", false, 0, 0, false, 0, 0⟩

/-- Scenario 1 configuration: 440 Hz sine, 1 s, flat envelope, everything
else off. -/
def cfg440 : PlayAudioConfig :=
  { frequency := 440, wave_type := "sine", duration := 1, volume := 1,
    attack := 0, decay := 0, sustain := 1, release := 0,
    harmonics := harmonicsOff, blending := blendingOff, advanced := advancedOff }

/-- A config with blending enabled at the in-repo `blend_ratio` value `0.5`
(stored in `[0,1]`, as every caller in the repository stores it). -/
def cfgBlend : PlayAudioConfig :=
  { frequency := 1, wave_type := "square", duration := 1, volume := 1,
    attack := 0, decay := 0, sustain := 1, release := 0,
    harmonics := harmonicsOff, blending := ⟨true, 1/2⟩, advanced := advancedOff }

/-- A fixed random stream, for closed statements. -/
def rngZero : ℕ → ℝ := fun _ => 0

/-- The same configuration with the advanced hook disabled. -/
def disableAdvanced (cfg : PlayAudioConfig) : PlayAudioConfig :=
  { cfg with advanced := { cfg.advanced with enabled := false } }

/-- A configuration with the advanced hook enabled (noise type, LFO and echo
settings set to arbitrary nontrivial values). -/
def cfgAdv : PlayAudioConfig :=
  { cfg440 with
    advanced := ⟨true, "noise", 7/5, 5, "white", true, 6, 1/2, true, 1/10, 1/2⟩ }

end SoundDesign

namespace SoundDesign

/-- Auxiliary bound: the sawtooth sample is within `[-1, 1]`. -/
theorem abs_sawQ_le_one (x : ℚ) : |sawQ x| ≤ 1 := by
  have h1 : (⌊x + 1/2⌋ : ℚ) ≤ x + 1/2 := Int.floor_le _
  have h2 : x + 1/2 < ⌊x + 1/2⌋ + 1 := Int.lt_floor_add_one _
  rw [sawQ, abs_le]
  constructor <;> nlinarith

/-- Auxiliary bound: the triangle sample is within `[-1, 1]`. -/
theorem abs_triQ_le_one (x : ℚ) : |triQ x| ≤ 1 := by
  have h1 : |sawQ x| ≤ 1 := abs_sawQ_le_one x
  have h0 : 0 ≤ |sawQ x| := abs_nonneg _
  rw [triQ, abs_le]
  constructor <;> nlinarith

/-- Every sample of every basic waveform is within `[-1, 1]`. -/
theorem abs_waveSample_le_one (wt : String) (f tq : ℚ) :
    |waveSample wt f tq| ≤ 1 := by
  unfold waveSample
  split_ifs with h1 h2 h3 h4
  · exact Real.abs_sin_le_one _
  · rcases Real.sign_apply_eq (Real.sin (2 * Real.pi * (f : ℝ) * (tq : ℝ))) with h | h | h <;>
      rw [h] <;> norm_num
  · calc |((sawQ (f * tq) : ℚ) : ℝ)| = ((|sawQ (f * tq)| : ℚ) : ℝ) := by push_cast; ring
      _ ≤ 1 := by exact_mod_cast abs_sawQ_le_one _
  · calc |((triQ (f * tq) : ℚ) : ℝ)| = ((|triQ (f * tq)| : ℚ) : ℝ) := by push_cast; ring
      _ ≤ 1 := by exact_mod_cast abs_triQ_le_one _
  · exact Real.abs_sin_le_one _

/-- C8: for every wave type, every positive frequency and every time vector,
each sample of the generated base waveform has absolute value at most 1. -/
theorem c8_waveform_bounded (wt : String) (f : ℚ) (hf : 0 < f)
    (t : List ℚ) : ∀ y ∈ generate_waveform t f wt, |y| ≤ 1 := by
  intro y hy
  rw [generate_waveform, List.mem_map] at hy
  obtain ⟨tq, _, rfl⟩ := hy
  exact abs_waveSample_le_one wt f tq

/-- Witness for C8 at wave type sine, frequency 1, time vector `[0]`. -/
theorem c8_waveform_bounded_witness :
    (0 : ℚ) < 1 ∧ ∀ y ∈ generate_waveform [0] 1 "sine", |y| ≤ 1 :=
  ⟨by norm_num, c8_waveform_bounded "sine" 1 (by norm_num) [0]⟩

/-- C10: an unknown wave type silently falls back to the sine waveform. -/
theorem c10_unknown_wave_type_falls_back_to_sine (wt : String) (f : ℚ)
    (t : List ℚ) (h1 : wt ≠ "sine") (h2 : wt ≠ "square")
    (h3 : wt ≠ "sawtooth") (h4 : wt ≠ "triangle") :
    generate_waveform t f wt = generate_waveform t f "sine" := by
  unfold generate_waveform
  refine List.map_congr_left (fun tq _ => ?_)
  simp [waveSample, h1, h2, h3, h4]

/-- Witness for C10 at the unknown wave type `"noise"`. -/
theorem c10_unknown_wave_type_falls_back_to_sine_witness :
    generate_waveform [0, 1/4] 440 "noise" = generate_waveform [0, 1/4] 440 "sine" :=
  c10_unknown_wave_type_falls_back_to_sine "noise" 440 [0, 1/4]
    (by decide) (by decide) (by decide) (by decide)

/-- C1: the four ADSR phase lengths, clamped in order, always sum exactly to
the total sample count, for every configuration and buffer length. -/
theorem c1_adsr_phase_lengths_sum (cfg : PlayAudioConfig) (n : ℕ) :
    attackSamples cfg n + decaySamples cfg n + sustainSamples cfg n +
      releaseSamples cfg n = n := by
  have hrel : releaseSamples cfg n ≤ adsrRemaining cfg n := min_le_right _ _
  have hsus : sustainSamples cfg n = adsrRemaining cfg n - releaseSamples cfg n := by
    rw [sustainSamples, max_eq_right (by omega)]
  rw [hsus, adsrRemaining]
  ring

/-- C9: with advanced synthesis enabled, the hook returns its input buffer
unchanged, and the rendered output equals the render of the same
configuration with advanced synthesis disabled. -/
theorem c9_advanced_hook_inert (cfg : PlayAudioConfig) (rng : ℕ → ℝ)
    (h : cfg.advanced.enabled = true) :
    (∀ (audio : List ℝ) (t : List ℚ), apply_advanced audio t cfg rng = audio) ∧
    generate_audio cfg rng = generate_audio (disableAdvanced cfg) rng := by
  refine ⟨fun audio t => rfl, ?_⟩
  simp only [generate_audio, apply_advanced, disableAdvanced, h]
  rfl

/-- Witness for C9 at the concrete advanced-enabled configuration `cfgAdv`. -/
theorem c9_advanced_hook_inert_witness :
    cfgAdv.advanced.enabled = true ∧
    ((∀ (audio : List ℝ) (t : List ℚ),
        apply_advanced audio t cfgAdv rngZero = audio) ∧
      generate_audio cfgAdv rngZero = generate_audio (disableAdvanced cfgAdv) rngZero) :=
  ⟨rfl, c9_advanced_hook_inert cfgAdv rngZero rfl⟩

/-- C3: rendering a document is independent of the random stream — two
renders of the same document produce identical output buffers.  (The only
randomness sources in the repository, the noise and Karplus-Strong
generators, are never reached by the render path.) -/
theorem c3_render_deterministic (doc : SoundDocument) (rng1 rng2 : ℕ → ℝ) :
    renderDocument doc rng1 = renderDocument doc rng2 := rfl

/-- The generated waveform has one sample per time-vector entry. -/
theorem length_generate_waveform (t : List ℚ) (f : ℚ) (wt : String) :
    (generate_waveform t f wt).length = t.length := by
  simp [generate_waveform]

/-- Harmonics preserve the buffer length when audio and time vector agree. -/
theorem length_apply_harmonics (audio : List ℝ) (t : List ℚ)
    (cfg : PlayAudioConfig) (h : audio.length = t.length) :
    (apply_harmonics audio t cfg).length = audio.length := by
  unfold apply_harmonics
  split_ifs <;> simp [apply_ite List.length, addScaled, generate_waveform, h]

/-- Blending preserves the buffer length when audio and time vector agree. -/
theorem length_apply_blending (audio : List ℝ) (t : List ℚ)
    (cfg : PlayAudioConfig) (h : audio.length = t.length) :
    (apply_blending audio t cfg).length = audio.length := by
  unfold apply_blending
  split_ifs <;> simp [generate_waveform, h]

/-- The ADSR stage preserves the buffer length. -/
theorem length_apply_adsr (audio : List ℝ) (cfg : PlayAudioConfig) :
    (apply_adsr audio cfg).length = audio.length := by
  simp [apply_adsr]

/-- The rendered buffer of a layer has exactly `numSamples` samples. -/
theorem length_generate_audio (cfg : PlayAudioConfig) (rng : ℕ → ℝ) :
    (generate_audio cfg rng).length = numSamples cfg.duration := by
  have ht : (timeVec cfg.duration).length = numSamples cfg.duration := by
    rw [timeVec, List.length_map, List.length_range]
  have h0 : (generate_waveform (timeVec cfg.duration) cfg.frequency
      cfg.wave_type).length = (timeVec cfg.duration).length :=
    length_generate_waveform _ _ _
  have h1 : (apply_harmonics (generate_waveform (timeVec cfg.duration)
      cfg.frequency cfg.wave_type) (timeVec cfg.duration) cfg).length =
      (timeVec cfg.duration).length :=
    (length_apply_harmonics _ _ _ h0).trans h0
  unfold generate_audio
  split_ifs <;>
    simp only [apply_advanced, length_apply_adsr,
      length_apply_blending _ _ _ h1, length_apply_blending _ _ _ h0,
      length_apply_harmonics _ _ _ h0, h0, h1, ht]

/-- C5 counterexample: at duration `109/441000` s the product with the sample
rate is `10.9`; the code truncates to 10 samples while the claimed rounding
would give 11. -/
theorem c5_counterexample_round_vs_truncate :
    (timeVec ((109 : ℚ)/441000)).length ≠
      (round (((109 : ℚ)/441000) * (sampleRate : ℚ))).toNat := by
  rw [timeVec, List.length_map, List.length_range]
  have h1 : numSamples ((109 : ℚ)/441000) = 10 := by
    rw [numSamples, pyInt, if_neg (by norm_num [sampleRate])]
    rw [show ((sampleRate : ℕ) : ℚ) * (109/441000) = 109/10 by norm_num [sampleRate]]
    rw [show ⌊(109 : ℚ)/10⌋ = 10 by norm_num]
    decide
  have h2 : (round (((109 : ℚ)/441000) * (sampleRate : ℚ))).toNat = 11 := by
    rw [show ((109 : ℚ)/441000) * (sampleRate : ℚ) = 109/10 by norm_num [sampleRate]]
    rw [show round ((109 : ℚ)/10) = 11 by norm_num [round_eq]]
    decide
  rw [h1, h2]
  norm_num

/-- C5 amended: for every duration `d ≥ 0`, the time vector and the rendered
buffer have length `⌊d * 44100⌋` (truncation of the product, not rounding). -/
theorem c5_length_is_truncated_product (d : ℚ) (hd : 0 ≤ d) :
    (timeVec d).length = (⌊d * (sampleRate : ℚ)⌋).toNat ∧
    ∀ (cfg : PlayAudioConfig) (rng : ℕ → ℝ), cfg.duration = d →
      (generate_audio cfg rng).length = (⌊d * (sampleRate : ℚ)⌋).toNat := by
  have hq : numSamples d = (⌊d * (sampleRate : ℚ)⌋).toNat := by
    rw [numSamples, pyInt, if_neg (not_lt.mpr (mul_nonneg (by norm_num) hd)),
      mul_comm]
  refine ⟨by rw [timeVec, List.length_map, List.length_range, hq],
    fun cfg rng hcfg => ?_⟩
  rw [length_generate_audio, hcfg, hq]

/-- Witness for the amended C5 at duration 1 s. -/
theorem c5_length_is_truncated_product_witness :
    (0 : ℚ) ≤ 1 ∧
    ((timeVec 1).length = (⌊(1 : ℚ) * (sampleRate : ℚ)⌋).toNat ∧
      ∀ (cfg : PlayAudioConfig) (rng : ℕ → ℝ), cfg.duration = 1 →
        (generate_audio cfg rng).length = (⌊(1 : ℚ) * (sampleRate : ℚ)⌋).toNat) :=
  ⟨by norm_num, c5_length_is_truncated_product 1 (by norm_num)⟩

/-- Indexing the rendered waveform over a time vector. -/
theorem getD_generate_waveform_timeVec (d f : ℚ) (wt : String) (i : ℕ)
    (hi : i < numSamples d) :
    (generate_waveform (timeVec d) f wt).getD i 0 =
      waveSample wt f (d * (i : ℚ) / ((numSamples d : ℕ) : ℚ)) := by
  have h1 : i < (generate_waveform (timeVec d) f wt).length := by
    rw [length_generate_waveform, timeVec, List.length_map, List.length_range]
    exact hi
  rw [List.getD_eq_getElem _ _ h1]
  simp [generate_waveform, timeVec]

/-- Indexing the ADSR output. -/
theorem getD_apply_adsr (audio : List ℝ) (cfg : PlayAudioConfig) (i : ℕ)
    (hi : i < audio.length) :
    (apply_adsr audio cfg).getD i 0 =
      audio.getD i 0 * adsrEnvelope cfg audio.length i := by
  have h1 : i < (apply_adsr audio cfg).length := by
    rw [length_apply_adsr]; exact hi
  rw [List.getD_eq_getElem _ _ h1, List.getD_eq_getElem _ _ hi]
  simp [apply_adsr]

/-- The scenario-1 render reduces to ADSR applied to the bare sine wave. -/
theorem generate_audio_cfg440 (rng : ℕ → ℝ) :
    generate_audio cfg440 rng =
      apply_adsr (generate_waveform (timeVec 1) 440 "sine") cfg440 := by
  unfold generate_audio
  rw [if_neg (by simp [show cfg440.advanced = advancedOff from rfl, advancedOff])]
  rw [if_neg (by simp [show cfg440.blending = blendingOff from rfl, blendingOff])]
  rw [if_neg (by simp [show cfg440.harmonics = harmonicsOff from rfl, harmonicsOff])]
  rfl

/-- 44100 samples in one second. -/
theorem numSamples_one : numSamples 1 = 44100 := by
  rw [numSamples, pyInt, if_neg (by norm_num [sampleRate])]
  rw [show ((sampleRate : ℕ) : ℚ) * 1 = 44100 by norm_num [sampleRate]]
  rw [show ⌊(44100 : ℚ)⌋ = 44100 by norm_num]
  decide

/-- With a zero attack/decay/release and sustain 1, the envelope is
identically 1 on the buffer. -/
theorem adsrEnvelope_cfg440 (i : ℕ) (hi : i < 44100) :
    adsrEnvelope cfg440 44100 i = 1 := by
  have hpy0 : pyInt ((0 : ℚ) * (sampleRate : ℚ)) = 0 := by
    rw [pyInt]; norm_num
  have ha : attackSamples cfg440 44100 = 0 := by
    rw [attackSamples, show cfg440.attack = (0 : ℚ) from rfl, hpy0]
    exact min_eq_left (by norm_num)
  have hd : decaySamples cfg440 44100 = 0 := by
    rw [decaySamples, show cfg440.decay = (0 : ℚ) from rfl, hpy0, ha]
    exact min_eq_left (by norm_num)
  have hrem : adsrRemaining cfg440 44100 = 44100 := by
    rw [adsrRemaining, ha, hd]; norm_num
  have hr : releaseSamples cfg440 44100 = 0 := by
    rw [releaseSamples, show cfg440.release = (0 : ℚ) from rfl, hpy0, hrem]
    exact min_eq_left (by norm_num)
  have hs : sustainSamples cfg440 44100 = 44100 := by
    rw [sustainSamples, hrem, hr]
    norm_num
  simp only [adsrEnvelope, ha, hd, hr, hs]
  norm_num [hi, show cfg440.sustain = (1 : ℚ) from rfl]

/-- The scenario-1 sample at index `i < 44100` is `sin(2π·440·(i/44100))`. -/
theorem cfg440_sample (rng : ℕ → ℝ) (i : ℕ) (hi : i < 44100) :
    (generate_audio cfg440 rng).getD i 0 =
      Real.sin (2 * Real.pi * 440 * (((1 : ℚ) * (i : ℚ) / 44100 : ℚ) : ℝ)) := by
  have hlen : (generate_waveform (timeVec 1) 440 "sine").length = 44100 := by
    rw [length_generate_waveform, timeVec, List.length_map, List.length_range,
      numSamples_one]
  rw [generate_audio_cfg440, getD_apply_adsr _ _ _ (by rw [hlen]; exact hi),
    hlen, adsrEnvelope_cfg440 i hi, mul_one,
    getD_generate_waveform_timeVec 1 440 "sine" i (by rw [numSamples_one]; exact hi),
    numSamples_one]
  simp [waveSample]

/-- The scenario-1 sample at index 11025 (0.25 s: 110 full cycles of 440 Hz)
is exactly zero. -/
theorem cfg440_sample_11025 (rng : ℕ → ℝ) :
    (generate_audio cfg440 rng).getD 11025 0 = 0 := by
  rw [cfg440_sample rng 11025 (by omega)]
  rw [show (((1 : ℚ) * ((11025 : ℕ) : ℚ) / 44100 : ℚ) : ℝ) = 1/4 by
    push_cast; norm_num]
  rw [show 2 * Real.pi * 440 * (1/4 : ℝ) = ((220 : ℤ) : ℝ) * Real.pi by
    push_cast; ring]
  exact Real.sin_int_mul_pi 220

/-- C4 counterexample: in scenario 1 the sample at index 11025 is exactly 0,
hence not approximately `+1` or `-1` (tolerance `1/10`). -/
theorem c4_counterexample_sample_11025_not_peak :
    (generate_audio cfg440 rngZero).getD 11025 0 = 0 ∧
    ¬(|(generate_audio cfg440 rngZero).getD 11025 0 - 1| ≤ 1/10 ∨
      |(generate_audio cfg440 rngZero).getD 11025 0 + 1| ≤ 1/10) := by
  refine ⟨cfg440_sample_11025 rngZero, ?_⟩
  rw [cfg440_sample_11025 rngZero]
  rw [not_or]
  constructor <;> · rw [abs_le]; intro h; rcases h with ⟨h1, h2⟩; norm_num at h1 h2

/-- C4 amended: in scenario 1 the output has length 44100, `output[0] = 0`,
and `output[11025] = 0` (0.25 s is 110 full cycles of 440 Hz, so the sine is
at a zero crossing there, not at a peak). -/
theorem c4_sine_scenario (rng : ℕ → ℝ) :
    (generate_audio cfg440 rng).length = 44100 ∧
    (generate_audio cfg440 rng).getD 0 0 = 0 ∧
    (generate_audio cfg440 rng).getD 11025 0 = 0 := by
  refine ⟨?_, ?_, cfg440_sample_11025 rng⟩
  · rw [length_generate_audio, show cfg440.duration = 1 from rfl, numSamples_one]
  · rw [cfg440_sample rng 0 (by omega)]
    norm_num

/-- Folding the running-maximum length over identical buffers. -/
theorem foldl_max_replicate (b : List ℝ) :
    ∀ (k : ℕ) (acc : ℕ),
      (List.replicate k b).foldl (fun m l => max m l.length) acc =
        if k = 0 then acc else max acc b.length := by
  intro k
  induction k with
  | zero => intro acc; simp
  | succ m ih =>
    intro acc
    rw [List.replicate_succ, List.foldl_cons, ih]
    rcases Nat.eq_zero_or_pos m with hm | hm
    · simp [hm]
    · rw [if_neg (by omega), if_neg (by omega), max_assoc, max_self]

/-- Padding to a buffer's own length is the identity. -/
theorem padTo_self (b : List ℝ) : padTo b.length b = b := by
  simp [padTo]

/-- Reading every position back yields the original buffer. -/
theorem range_map_getD (l : List ℝ) :
    (List.range l.length).map (fun i => l.getD i 0) = l := by
  apply List.ext_getElem
  · simp
  · intro n h1 h2
    simp only [List.getElem_map, List.getElem_range]
    rw [List.getD_eq_getElem _ _ h2]

/-- The elementwise mean of `k ≥ 1` identical buffers is that buffer. -/
theorem meanLists_replicate (b : List ℝ) (k : ℕ) (hk : 1 ≤ k) :
    meanLists (List.replicate k b) b.length = b := by
  have hpt : ∀ i : ℕ,
      ((List.replicate k b).map (fun l => l.getD i 0)).sum /
        (((List.replicate k b).length : ℕ) : ℝ) = b.getD i 0 := by
    intro i
    rw [List.map_replicate, List.sum_replicate, List.length_replicate,
      nsmul_eq_mul]
    exact mul_div_cancel_left₀ _ (Nat.cast_ne_zero.mpr (by omega))
  simp only [meanLists, hpt]
  exact range_map_getD b

/-- The running maximum over a single buffer is its length. -/
theorem maxLength_singleton (b : List ℝ) : maxLength [b] = b.length := by
  simp [maxLength]

/-- C6: simultaneous mixing of `k ≥ 1` identical copies of a buffer yields
exactly the same output as mixing the single buffer (the mixer averages, then
applies the same headroom scaling and clipping in both cases). -/
theorem c6_mix_identical_copies (b : List ℝ) (k : ℕ) (hk : 1 ≤ k) :
    mixSimultaneous (List.replicate k b) = mixSimultaneous [b] := by
  rcases Nat.lt_or_ge k 2 with h2 | h2
  · have hk1 : k = 1 := by omega
    rw [hk1, List.replicate_one]
  · have hne : List.replicate k b ≠ [] := by
      intro h
      have := congrArg List.length h
      simp at this
      omega
    have hmaxL : maxLength (List.replicate k b) = b.length := by
      rw [maxLength, foldl_max_replicate b k 0, if_neg (by omega)]
      exact max_eq_right (Nat.zero_le _)
    rw [mixSimultaneous, mixSimultaneous]
    rw [if_neg hne]
    rw [if_neg (show ¬(([b] : List (List ℝ)) = []) by simp)]
    rw [if_neg (show ¬((List.replicate k b).length = 1) by
      rw [List.length_replicate]; omega)]
    rw [if_pos (show ([b] : List (List ℝ)).length = 1 by simp)]
    rw [hmaxL, List.map_replicate, padTo_self, meanLists_replicate b k (by omega)]
    rw [maxLength_singleton, show ([b] : List (List ℝ)).headD [] = b from rfl,
      padTo_self]

/-- Witness for C6 with two copies of the buffer `[1/2]`. -/
theorem c6_mix_identical_copies_witness :
    1 ≤ 2 ∧
    mixSimultaneous (List.replicate 2 [(1/2 : ℝ)]) = mixSimultaneous [[(1/2 : ℝ)]] :=
  ⟨by norm_num, c6_mix_identical_copies [(1/2 : ℝ)] 2 (by norm_num)⟩

/-- Reading an updated buffer at an arbitrary position. -/
theorem getD_set (l : List ℝ) (j : ℕ) (v : ℝ) (i : ℕ) :
    (l.set j v).getD i 0 = if j = i ∧ j < l.length then v else l.getD i 0 := by
  rw [List.getD_eq_getElem?_getD, List.getElem?_set]
  by_cases hji : j = i
  · subst hji
    by_cases hlen : j < l.length
    · simp [hlen]
    · simp [hlen, List.getD_eq_default _ _ (le_of_not_lt hlen),
        List.getElem?_eq_none (le_of_not_lt hlen)]
  · simp only [if_neg hji,
      if_neg (fun h : j = i ∧ j < l.length => hji h.1)]
    exact (List.getD_eq_getElem?_getD l i 0).symm

/-- One more iteration of the echo loop updates position `d + k`. -/
theorem echoLoopAux_succ (audio : List ℝ) (d : ℕ) (fb : ℝ) (k : ℕ) :
    echoLoopAux audio d fb (k + 1) =
      (echoLoopAux audio d fb k).set (d + k)
        ((echoLoopAux audio d fb k).getD (d + k) 0 +
          (echoLoopAux audio d fb k).getD ((d + k) - d) 0 * fb) := by
  rw [echoLoopAux, echoLoopAux, List.range'_concat, List.foldl_append]
  simp

/-- Invariant of the echo loop after `k` iterations: length preserved,
positions before `d` and from `d + k` on untouched, and every processed
position satisfies the causal feedback recurrence. -/
theorem echoLoopAux_spec (audio : List ℝ) (d : ℕ) (fb : ℝ) (hd : 1 ≤ d) :
    ∀ k, d + k ≤ audio.length →
      (echoLoopAux audio d fb k).length = audio.length ∧
      (∀ i, i < d ∨ d + k ≤ i →
        (echoLoopAux audio d fb k).getD i 0 = audio.getD i 0) ∧
      (∀ i, d ≤ i → i < d + k →
        (echoLoopAux audio d fb k).getD i 0 =
          audio.getD i 0 + (echoLoopAux audio d fb k).getD (i - d) 0 * fb) := by
  intro k
  induction k with
  | zero =>
    intro _
    exact ⟨rfl, fun i _ => rfl, fun i h1 h2 => absurd h2 (by omega)⟩
  | succ m ih =>
    intro hk
    obtain ⟨ihlen, ihout, ihin⟩ := ih (by omega)
    have hdm : d + m < audio.length := by omega
    have hdmS : d + m < (echoLoopAux audio d fb m).length := by
      rw [ihlen]; exact hdm
    refine ⟨?_, ?_, ?_⟩
    · rw [echoLoopAux_succ, List.length_set]; exact ihlen
    · intro i hi
      rw [echoLoopAux_succ, getD_set, if_neg (by rintro ⟨h, -⟩; omega)]
      exact ihout i (by omega)
    · intro i h1 h2
      by_cases hi : i = d + m
      · subst hi
        rw [echoLoopAux_succ, getD_set, if_pos ⟨rfl, hdmS⟩]
        have e1 : (echoLoopAux audio d fb m).getD (d + m) 0 =
            audio.getD (d + m) 0 := ihout _ (Or.inr (le_refl _))
        have e2 : ((echoLoopAux audio d fb m).set (d + m)
              ((echoLoopAux audio d fb m).getD (d + m) 0 +
                (echoLoopAux audio d fb m).getD ((d + m) - d) 0 * fb)).getD
              ((d + m) - d) 0 =
            (echoLoopAux audio d fb m).getD ((d + m) - d) 0 := by
          rw [getD_set, if_neg (by rintro ⟨h, -⟩; omega)]
        rw [e2, e1]
      · have hilt : i < d + m := by omega
        have ha : ((echoLoopAux audio d fb m).set (d + m)
              ((echoLoopAux audio d fb m).getD (d + m) 0 +
                (echoLoopAux audio d fb m).getD ((d + m) - d) 0 * fb)).getD i 0 =
            (echoLoopAux audio d fb m).getD i 0 := by
          rw [getD_set, if_neg (by rintro ⟨h, -⟩; omega)]
        have hb : ((echoLoopAux audio d fb m).set (d + m)
              ((echoLoopAux audio d fb m).getD (d + m) 0 +
                (echoLoopAux audio d fb m).getD ((d + m) - d) 0 * fb)).getD
              (i - d) 0 =
            (echoLoopAux audio d fb m).getD (i - d) 0 := by
          rw [getD_set, if_neg (by rintro ⟨h, -⟩; omega)]
        rw [echoLoopAux_succ, ha, hb]
        exact ihin i h1 hilt

/-- C7: the echo keeps the first `delaySamples` samples, satisfies the causal
compounding recurrence `out[i] = in[i] + out[i - d] * feedback` on the rest,
yields `out[d] = in[d] + in[0] * feedback` in particular, and the final
result is divided by the peak exactly when the peak exceeds 1. -/
theorem c7_echo_causal_feedback (audio : List ℝ) (delayTime : ℚ) (fb : ℝ)
    (hd : 1 ≤ delaySamplesOf delayTime) :
    (∀ i < delaySamplesOf delayTime,
      (echoLoop audio (delaySamplesOf delayTime) fb).getD i 0 =
        audio.getD i 0) ∧
    (∀ i, delaySamplesOf delayTime ≤ i → i < audio.length →
      (echoLoop audio (delaySamplesOf delayTime) fb).getD i 0 =
        audio.getD i 0 +
          (echoLoop audio (delaySamplesOf delayTime) fb).getD
            (i - delaySamplesOf delayTime) 0 * fb) ∧
    (delaySamplesOf delayTime < audio.length →
      (echoLoop audio (delaySamplesOf delayTime) fb).getD
          (delaySamplesOf delayTime) 0 =
        audio.getD (delaySamplesOf delayTime) 0 + audio.getD 0 0 * fb) ∧
    apply_simple_echo audio delayTime fb =
      (if 1 < maxAbs (echoLoop audio (delaySamplesOf delayTime) fb) then
        (echoLoop audio (delaySamplesOf delayTime) fb).map
          (fun x => x / maxAbs (echoLoop audio (delaySamplesOf delayTime) fb))
       else echoLoop audio (delaySamplesOf delayTime) fb) := by
  by_cases hrange : delaySamplesOf delayTime ≤ audio.length
  · obtain ⟨hlen, hout, hin⟩ :=
      echoLoopAux_spec audio (delaySamplesOf delayTime) fb hd
        (audio.length - delaySamplesOf delayTime) (by omega)
    have hfirst : ∀ i < delaySamplesOf delayTime,
        (echoLoop audio (delaySamplesOf delayTime) fb).getD i 0 =
          audio.getD i 0 := fun i hi => hout i (Or.inl hi)
    have hrec : ∀ i, delaySamplesOf delayTime ≤ i → i < audio.length →
        (echoLoop audio (delaySamplesOf delayTime) fb).getD i 0 =
          audio.getD i 0 +
            (echoLoop audio (delaySamplesOf delayTime) fb).getD
              (i - delaySamplesOf delayTime) 0 * fb :=
      fun i h1 h2 => hin i h1 (by omega)
    refine ⟨hfirst, hrec, fun hlt => ?_, rfl⟩
    rw [hrec _ (le_refl _) hlt, Nat.sub_self, hfirst 0 (by omega)]
  · have hk0 : audio.length - delaySamplesOf delayTime = 0 := by omega
    have hid : echoLoop audio (delaySamplesOf delayTime) fb = audio := by
      rw [echoLoop, hk0]; rfl
    refine ⟨fun i _ => by rw [hid], fun i h1 h2 => absurd h2 (by omega),
      fun hlt => absurd hlt (by omega), rfl⟩

/-- `delay_samples` for a 1-sample delay time at 44100 Hz. -/
theorem delaySamplesOf_one_over_sr : delaySamplesOf (1/44100) = 1 := by
  rw [delaySamplesOf, pyInt, if_neg (by norm_num [sampleRate])]
  rw [show ((1 : ℚ)/44100) * ((sampleRate : ℕ) : ℚ) = 1 by norm_num [sampleRate]]
  rw [show ⌊(1 : ℚ)⌋ = 1 by norm_num]
  decide

/-- Witness for C7 on the impulse buffer `[1, 0]` with a 1-sample delay. -/
theorem c7_echo_causal_feedback_witness :
    1 ≤ delaySamplesOf (1/44100) ∧
    ((∀ i < delaySamplesOf (1/44100),
      (echoLoop [(1 : ℝ), 0] (delaySamplesOf (1/44100)) (1/2)).getD i 0 =
        ([(1 : ℝ), 0]).getD i 0) ∧
    (∀ i, delaySamplesOf (1/44100) ≤ i → i < ([(1 : ℝ), 0]).length →
      (echoLoop [(1 : ℝ), 0] (delaySamplesOf (1/44100)) (1/2)).getD i 0 =
        ([(1 : ℝ), 0]).getD i 0 +
          (echoLoop [(1 : ℝ), 0] (delaySamplesOf (1/44100)) (1/2)).getD
            (i - delaySamplesOf (1/44100)) 0 * (1/2)) ∧
    (delaySamplesOf (1/44100) < ([(1 : ℝ), 0]).length →
      (echoLoop [(1 : ℝ), 0] (delaySamplesOf (1/44100)) (1/2)).getD
          (delaySamplesOf (1/44100)) 0 =
        ([(1 : ℝ), 0]).getD (delaySamplesOf (1/44100)) 0 +
          ([(1 : ℝ), 0]).getD 0 0 * (1/2)) ∧
    apply_simple_echo [(1 : ℝ), 0] (1/44100) (1/2) =
      (if 1 < maxAbs (echoLoop [(1 : ℝ), 0] (delaySamplesOf (1/44100)) (1/2)) then
        (echoLoop [(1 : ℝ), 0] (delaySamplesOf (1/44100)) (1/2)).map
          (fun x => x / maxAbs (echoLoop [(1 : ℝ), 0] (delaySamplesOf (1/44100)) (1/2)))
       else echoLoop [(1 : ℝ), 0] (delaySamplesOf (1/44100)) (1/2))) :=
  ⟨by rw [delaySamplesOf_one_over_sr],
    c7_echo_causal_feedback [(1 : ℝ), 0] (1/44100) (1/2)
      (by rw [delaySamplesOf_one_over_sr])⟩

/-- C2: evaluating `_apply_blending` at a square layer with the stored
`blend_ratio = 0.5` (the in-repo `[0,1]` convention) on a primary sample `1`
and time `1/4` (where the paired triangle sample is `0`): the code divides
the ratio by 100 a second time and yields `1 - 1/200 = 199/200` instead of
the intended `1*(1-0.5) + 0*0.5 = 1/2`. -/
theorem c2_blending_double_percentage_division :
    apply_blending [(1 : ℝ)] [(1 : ℚ)/4] cfgBlend = [(199/200 : ℝ)] ∧
    (199/200 : ℝ) ≠ (1 : ℝ) * (1 - 1/2) + 0 * (1/2) := by
  constructor
  · simp [apply_blending, cfgBlend, generate_waveform, waveSample]
    norm_num [triQ, sawQ, abs_of_nonneg]
  · norm_num

end SoundDesign
